import Mathlib

/-!
Verification of the GifCompose pipeline (src/GifCompose/main.cpp).

The development shallowly embeds the compositing and encoding pipeline:
premultiplied-BGRA pixels are modelled with rational components, Direct2D
draw calls as operations on a canvas, the directory loader as a function
over an abstract directory listing, and the orchestrator MainAsync as a
function producing the ordered trace of the observable pipeline events
together with its success or failure outcome.
-/

/-- A premultiplied-alpha BGRA color; components are modelled as rationals
(Direct2D operates on normalized color values). -/
structure Color where
  r : ℚ
  g : ℚ
  b : ℚ
  a : ℚ
deriving DecidableEq

/-- A pixel surface / drawable bitmap: fixed dimensions plus a pixel
function. Models both loaded `ID2D1Bitmap1` images and render targets. -/
structure Bitmap where
  width : ℕ
  height : ℕ
  pixel : ℕ → ℕ → Color

/-- Premultiplied source-over blending, the default Direct2D primitive
blend used by `ID2D1DeviceContext::DrawBitmap`. -/
def srcOver (dst src : Color) : Color :=
  ⟨src.r + dst.r * (1 - src.a),
   src.g + dst.g * (1 - src.a),
   src.b + dst.b * (1 - src.a),
   src.a + dst.a * (1 - src.a)⟩

/-- Opaque white, the clear color used for the background template
(main.cpp line 129: `D2D1_COLOR_F{1.0f, 1.0f, 1.0f, 1.0f}`). -/
def whiteColor : Color := ⟨1, 1, 1, 1⟩

/-- Fully transparent black, used for uninitialized surfaces. -/
def zeroColor : Color := ⟨0, 0, 0, 0⟩

/-- A freshly created texture of the given dimensions (contents are then
cleared before use). -/
def blankCanvas (w h : ℕ) : Bitmap := ⟨w, h, fun _ _ => zeroColor⟩

/-- Effect of `ID2D1DeviceContext::Clear`: every pixel becomes the clear
color; dimensions are unchanged. -/
def clearCanvas (w h : ℕ) (c : Color) : Bitmap := ⟨w, h, fun _ _ => c⟩

/-- Effect of `DrawBitmap(src)` with default arguments on a target: the
source is placed at the origin, unscaled, blended source-over; pixels
outside the source extent are untouched. -/
def drawBitmap (dst src : Bitmap) : Bitmap :=
  { dst with
    pixel := fun x y =>
      if x < src.width ∧ y < src.height then srcOver (dst.pixel x y) (src.pixel x y)
      else dst.pixel x y }

/-- A Direct2D drawing command issued between BeginDraw and EndDraw. -/
inductive DrawCmd where
  | clear (c : Color)
  | draw (b : Bitmap)

/-- Execution of one drawing command against the current target. -/
def execCmd (target : Bitmap) : DrawCmd → Bitmap
  | DrawCmd.clear c => clearCanvas target.width target.height c
  | DrawCmd.draw b => drawBitmap target b

/-- Execution of a command list in order (one BeginDraw/EndDraw pass). -/
def execCmds (target : Bitmap) (cmds : List DrawCmd) : Bitmap :=
  cmds.foldl execCmd target

/-- The background template as drawn by main.cpp lines 127-136: on a fresh
texture of the frame dimensions, one draw pass clears to opaque white and
then draws every background bitmap in order. -/
def backgroundTemplate (w h : ℕ) (bgs : List Bitmap) : Bitmap :=
  execCmds (blankCanvas w h) (DrawCmd.clear whiteColor :: bgs.map DrawCmd.draw)

/-- Modelled from the spec's words, for comparison with the source-derived
`backgroundTemplate`: the sequential source-over composite of the
Background Set over an opaque-white canvas of the target dimensions. -/
def specBackgroundComposite (w h : ℕ) (bgs : List Bitmap) : Bitmap :=
  bgs.foldl drawBitmap (clearCanvas w h whiteColor)

/-! ### The image loader (`LoadBitmapsAsync`, main.cpp lines 264-305) -/

/-- Lexicographic comparison of character lists by code point, the order
`std::sort` applies to the collected `std::wstring` filenames. -/
def strLeAux : List Char → List Char → Bool
  | [], _ => true
  | _ :: _, [] => false
  | a :: as, b :: bs =>
    if a.toNat < b.toNat then true
    else if b.toNat < a.toNat then false
    else strLeAux as bs

/-- Lexicographic (byte/code-point) order on filenames. -/
def strLe (a b : String) : Bool := strLeAux a.data b.data

/-- Insertion of a name into an already sorted name list. -/
def insertSorted (x : String) : List String → List String
  | [] => [x]
  | y :: ys => if strLe x y then x :: y :: ys else y :: insertSorted x ys

/-- Ascending lexicographic sort of the collected filenames, modelling the
`std::sort(files.begin(), files.end())` call. -/
def sortNames : List String → List String
  | [] => []
  | x :: xs => insertSorted x (sortNames xs)

/-- The period character. -/
def dotChar : Char := Char.ofNat 46

/-- Extension of a filename, following `std::filesystem::path::extension`:
the substring from the last period, except that a name without a period, a
dotfile (period only at position zero), and the special names with only
periods have no extension. -/
def fileExtension (name : String) : String :=
  let cs := name.data
  if cs = [dotChar] ∨ cs = [dotChar, dotChar] then String.mk []
  else
    match cs.reverse.findIdx? (fun c => c == dotChar) with
    | none => String.mk []
    | some j =>
      let i := cs.length - 1 - j
      if i = 0 then String.mk [] else String.mk (cs.drop i)

/-- The one recognized still-image extension (main.cpp line 282). -/
def pngExt : String := ".png"

/-- A directory entry as seen by `std::filesystem::directory_iterator`:
its filename, whether it is a regular file, and the pixel surface its
contents decode to. -/
structure Entry where
  name : String
  regular : Bool
  image : Bitmap

/-- An abstract directory: `none` when the path does not resolve to a
directory (missing path or non-directory), otherwise the list of direct
entries (non-recursive, as `directory_iterator` yields them). -/
def Dir : Type := Option (List Entry)

/-- The loader's file filter (main.cpp lines 279-283): regular files whose
extension exists and equals the png extension. -/
def isPngFile (e : Entry) : Bool :=
  e.regular && (fileExtension e.name == pngExt)

/-- Error taxonomy of the pipeline, per the spec's error design. -/
inductive GifError where
  | invalidPath
  | dimensionMismatch
deriving DecidableEq

/-- Decoded image of the named directory entry, modelling
`folder.GetFileAsync(filename)` followed by the stream decode. -/
def imageNamed (entries : List Entry) (n : String) : Bitmap :=
  match entries.find? (fun e => e.name == n) with
  | some e => e.image
  | none => blankCanvas 0 0

/-- The loader `LoadBitmapsAsync`: fail when the path is not a directory,
otherwise collect the names of the regular png files, sort them
ascending, and decode each named file in that order. -/
def loadBitmaps (d : Dir) : Except GifError (List Bitmap) :=
  match d with
  | none => Except.error GifError.invalidPath
  | some entries =>
    let files := (entries.filter isPngFile).map Entry.name
    let sorted := sortNames files
    Except.ok (sorted.map (imageNamed entries))

/-! ### The orchestrator (`MainAsync`, main.cpp lines 46-187) and the GIF
encoder adapter (`CreateGifEncoderAsync`, lines 317-338) -/

/-- Pixel formats the encoder accepts; the pipeline always uses Bgra8. -/
inductive PixFormat where
  | bgra8
  | rgba8
deriving DecidableEq

/-- Alpha modes the encoder accepts; the pipeline always uses
premultiplied. -/
inductive AlphaMode where
  | premultiplied
  | straight
deriving DecidableEq

/-- Observable events of one pipeline run, in program order. Per-frame
events carry the zero-based frame index. -/
inductive Event where
  | framesLoaded (n : ℕ)
  | noFramesLog
  | backgroundsLoaded (n : ℕ)
  | outputFileCreated
  | templateDrawn
  | streamOpened
  | containerPropsSet (app : List ℕ) (data : List ℕ)
  | beginDraw (i : ℕ)
  | drewTemplate (i : ℕ)
  | drewFrame (i : ℕ)
  | endDraw (i : ℕ)
  | copiedToStaging (i : ℕ)
  | bytesExtracted (i : ℕ)
  | delaySet (i : ℕ) (ticks : ℕ)
  | pixelsCommitted (i : ℕ) (fmt : PixFormat) (alpha : AlphaMode) (w h : ℕ) (dpiX dpiY : ℚ)
  | advancedFrame (i : ℕ)
  | flushed
  | doneLog
deriving DecidableEq

/-- The NETSCAPE2.0 identifier text written to the application block. -/
def netscapeText : String := "NETSCAPE2.0"

/-- The bytes of the application-block tag (main.cpp lines 324-326): the
ASCII code points of the identifier text. -/
def netscapeBytes : List ℕ := netscapeText.data.map Char.toNat

/-- The looping-extension data block bytes (main.cpp line 335). -/
def loopDataBytes : List ℕ := [3, 1, 0, 0, 0]

/-- The hardcoded per-frame delay in 1/100-second ticks (main.cpp line
140). -/
def frameDelay : ℕ := 13

/-- The per-frame render pass and readback (main.cpp lines 150-158):
begin draw, draw the background template, draw the frame on top, end
draw, copy the render target into the staging texture, extract the bytes. -/
def renderPassEvents (i : ℕ) : List Event :=
  [Event.beginDraw i, Event.drewTemplate i, Event.drewFrame i, Event.endDraw i,
   Event.copiedToStaging i, Event.bytesExtracted i]

/-- The per-frame encoder interaction (main.cpp lines 160-178): set the
delay property (truncated to an unsigned 16-bit value), commit the pixel
data in Bgra8 premultiplied format at the frame dimensions with 1:1
scale, and advance to the next frame slot unless this is the last frame. -/
def encodeFrameEvents (n w h : ℕ) (i : ℕ) : List Event :=
  [Event.delaySet i (frameDelay % 65536),
   Event.pixelsCommitted i PixFormat.bgra8 AlphaMode.premultiplied w h 1 1]
  ++ (if i < n - 1 then [Event.advancedFrame i] else [])

/-- All events of one iteration of the encode loop for frame index i. -/
def renderFrameEvents (n w h : ℕ) (i : ℕ) : List Event :=
  renderPassEvents i ++ encodeFrameEvents n w h i

/-- The encode loop (main.cpp lines 146-179) over the remaining frames,
with i the index of the first remaining frame and n the total count. -/
def encodeLoop (n w h : ℕ) : List Bitmap → ℕ → List Event
  | [], _ => []
  | _ :: rest, i => renderFrameEvents n w h i ++ encodeLoop n w h rest (i + 1)

/-- The first six events of a successful run that reaches encoding:
loading and validation, output file creation, the background template
pass, stream opening, and the once-only container metadata write done in
`CreateGifEncoderAsync`. -/
def headerEvents (nFrames nBgs : ℕ) : List Event :=
  [Event.framesLoaded nFrames, Event.backgroundsLoaded nBgs,
   Event.outputFileCreated, Event.templateDrawn, Event.streamOpened,
   Event.containerPropsSet netscapeBytes loopDataBytes]

/-- The full event trace of a run that passes validation. -/
def successTrace (frames bgs : List Bitmap) (w h : ℕ) : List Event :=
  headerEvents frames.length bgs.length
  ++ encodeLoop frames.length w h frames 0
  ++ [Event.flushed, Event.doneLog]

/-- The two directory paths handed to the pipeline. -/
structure PipelineInput where
  framesDir : Dir
  backgroundsDir : Dir

/-- The orchestrator `MainAsync`: load the frames (returning early with a
log line when none are found), check that all frames share the first
frame's dimensions, load the backgrounds and check them against the same
dimensions, then create the output, draw the template, and run the encode
loop followed by the single flush. The result is the ordered event trace
together with the outcome. -/
def mainAsync (inp : PipelineInput) : List Event × Except GifError Unit :=
  match loadBitmaps inp.framesDir with
  | Except.error e => ([], Except.error e)
  | Except.ok frames =>
    match frames with
    | [] => ([Event.framesLoaded 0, Event.noFramesLog], Except.ok ())
    | f0 :: _ =>
      if frames.all (fun f => f.width == f0.width && f.height == f0.height) then
        match loadBitmaps inp.backgroundsDir with
        | Except.error e => ([Event.framesLoaded frames.length], Except.error e)
        | Except.ok backgrounds =>
          if backgrounds.all (fun b => b.width == f0.width && b.height == f0.height) then
            (successTrace frames backgrounds f0.width f0.height, Except.ok ())
          else
            ([Event.framesLoaded frames.length, Event.backgroundsLoaded backgrounds.length],
             Except.error GifError.dimensionMismatch)
      else
        ([Event.framesLoaded frames.length], Except.error GifError.dimensionMismatch)

/-- Exit code of `wmain` for a parsed command line: 0 when `MainAsync`
completes, none (abnormal termination by unhandled exception) when it
throws. -/
def wmainExitCode (inp : PipelineInput) : Option ℕ :=
  match (mainAsync inp).2 with
  | Except.ok _ => some 0
  | Except.error _ => none

/-- Frame index carried by a per-frame event, if any. -/
def evFrameIdx : Event → Option ℕ
  | Event.beginDraw i => some i
  | Event.drewTemplate i => some i
  | Event.drewFrame i => some i
  | Event.endDraw i => some i
  | Event.copiedToStaging i => some i
  | Event.bytesExtracted i => some i
  | Event.delaySet i _ => some i
  | Event.pixelsCommitted i _ _ _ _ _ _ => some i
  | Event.advancedFrame i => some i
  | _ => none

/-- Rendering and encoding activity: drawing the template, any per-frame
event, or the encoder flush. -/
def isRenderOrEncodeEvent : Event → Bool
  | Event.templateDrawn => true
  | Event.containerPropsSet _ _ => true
  | Event.beginDraw _ => true
  | Event.drewTemplate _ => true
  | Event.drewFrame _ => true
  | Event.endDraw _ => true
  | Event.copiedToStaging _ => true
  | Event.bytesExtracted _ => true
  | Event.delaySet _ _ => true
  | Event.pixelsCommitted _ _ _ _ _ _ _ => true
  | Event.advancedFrame _ => true
  | Event.flushed => true
  | _ => false

/-- Events that write an output frame: the per-frame metadata write and
the pixel-data commit. -/
def isFrameWrite : Event → Bool
  | Event.delaySet _ _ => true
  | Event.pixelsCommitted _ _ _ _ _ _ _ => true
  | _ => false

/-- Recognizer for the frame-advance operation. -/
def isAdvance : Event → Bool
  | Event.advancedFrame _ => true
  | _ => false

/-- Recognizer for the encoder flush. -/
def isFlush : Event → Bool
  | Event.flushed => true
  | _ => false

/-- Recognizer for the container-level metadata write. -/
def isContainerPropsSet : Event → Bool
  | Event.containerPropsSet _ _ => true
  | _ => false

/-- Recognizer for the pixel-data commit. -/
def isPixelsCommitted : Event → Bool
  | Event.pixelsCommitted _ _ _ _ _ _ _ => true
  | _ => false

/-! ### Concrete inputs used to instantiate the theorems -/

/-- Opaque red, premultiplied. -/
def redColor : Color := ⟨1, 0, 0, 1⟩

/-- Opaque green, premultiplied. -/
def greenColor : Color := ⟨0, 1, 0, 1⟩

/-- A solid-color bitmap of the given dimensions. -/
def solidBitmap (w h : ℕ) (c : Color) : Bitmap := ⟨w, h, fun _ _ => c⟩

/-- First demo filename. -/
def nameA : String := "a.png"

/-- Second demo filename. -/
def nameB : String := "b.png"

/-- A 2 by 2 red frame. -/
def bmpRed : Bitmap := solidBitmap 2 2 redColor

/-- A 2 by 2 green frame. -/
def bmpGreen : Bitmap := solidBitmap 2 2 greenColor

/-- A 3 by 2 green frame, deliberately wider than the others. -/
def bmpWide : Bitmap := solidBitmap 3 2 greenColor

/-- A frames directory holding two same-size frames. -/
def demoFramesDir : Dir := some [⟨nameA, true, bmpRed⟩, ⟨nameB, true, bmpGreen⟩]

/-- A frames directory whose second frame has different dimensions. -/
def demoMismatchDir : Dir := some [⟨nameA, true, bmpRed⟩, ⟨nameB, true, bmpWide⟩]

/-- A directory with no entries at all. -/
def emptyDir : Dir := some ([] : List Entry)

/-- A frames directory holding exactly one frame. -/
def oneFrameDir : Dir := some [⟨nameA, true, bmpRed⟩]

/-- A well-formed two-frame run with no backgrounds. -/
def demoInput : PipelineInput := ⟨demoFramesDir, emptyDir⟩

/-- A run whose frames disagree in size. -/
def demoMismatchInput : PipelineInput := ⟨demoMismatchDir, emptyDir⟩

/-- A run whose frames directory contains no images. -/
def emptyFramesInput : PipelineInput := ⟨emptyDir, emptyDir⟩

/-- A run with exactly one frame and no backgrounds. -/
def oneFrameInput : PipelineInput := ⟨oneFrameDir, emptyDir⟩

theorem execCmd_width (t : Bitmap) (c : DrawCmd) : (execCmd t c).width = t.width := by
  cases c <;> rfl

theorem execCmd_height (t : Bitmap) (c : DrawCmd) : (execCmd t c).height = t.height := by
  cases c <;> rfl

theorem execCmds_width (cmds : List DrawCmd) : ∀ t : Bitmap, (execCmds t cmds).width = t.width := by
  induction cmds with
  | nil => intro t; rfl
  | cons c cs ih =>
    intro t
    show (execCmds (execCmd t c) cs).width = t.width
    rw [ih, execCmd_width]

theorem execCmds_height (cmds : List DrawCmd) : ∀ t : Bitmap, (execCmds t cmds).height = t.height := by
  induction cmds with
  | nil => intro t; rfl
  | cons c cs ih =>
    intro t
    show (execCmds (execCmd t c) cs).height = t.height
    rw [ih, execCmd_height]

theorem srcOver_opaque (dst src : Color) (h : src.a = 1) : srcOver dst src = src := by
  cases src
  simp only [srcOver, Color.mk.injEq] at h ⊢
  subst h
  refine ⟨?_, ?_, ?_, ?_⟩ <;> ring

theorem backgroundTemplate_eq_spec (w h : ℕ) (bgs : List Bitmap) :
    backgroundTemplate w h bgs = specBackgroundComposite w h bgs := by
  show execCmds (execCmd (blankCanvas w h) (DrawCmd.clear whiteColor)) (bgs.map DrawCmd.draw)
      = specBackgroundComposite w h bgs
  show List.foldl execCmd (clearCanvas w h whiteColor) (bgs.map DrawCmd.draw)
      = specBackgroundComposite w h bgs
  rw [List.foldl_map]
  rfl

theorem strLeAux_total (as : List Char) : ∀ bs, strLeAux as bs = true ∨ strLeAux bs as = true := by
  induction as with
  | nil => intro bs; left; rfl
  | cons a as ih =>
    intro bs
    cases bs with
    | nil => right; rfl
    | cons b bs =>
      simp only [strLeAux]
      rcases Nat.lt_trichotomy a.toNat b.toNat with hlt | heq | hgt
      · left; simp [hlt]
      · have h1 : ¬ a.toNat < b.toNat := by omega
        have h2 : ¬ b.toNat < a.toNat := by omega
        simp only [h1, h2, if_false]
        exact ih bs
      · right; simp [hgt]

theorem strLeAux_trans (as : List Char) :
    ∀ bs cs, strLeAux as bs = true → strLeAux bs cs = true → strLeAux as cs = true := by
  induction as with
  | nil => intro bs cs _ _; rfl
  | cons a as ih =>
    intro bs cs h1 h2
    cases bs with
    | nil => simp [strLeAux] at h1
    | cons b bs =>
      cases cs with
      | nil => simp [strLeAux] at h2
      | cons c cs =>
        simp only [strLeAux] at h1 h2 ⊢
        split_ifs at h1 h2 ⊢ <;> first
          | rfl
          | omega
          | (exact ih bs cs h1 h2)

theorem strLe_total (a b : String) : strLe a b = true ∨ strLe b a = true :=
  strLeAux_total a.data b.data

theorem strLe_trans (a b c : String) : strLe a b = true → strLe b c = true → strLe a c = true :=
  strLeAux_trans a.data b.data c.data

theorem insertSorted_perm (x : String) (l : List String) : (insertSorted x l).Perm (x :: l) := by
  induction l with
  | nil => exact List.Perm.refl _
  | cons y ys ih =>
    simp only [insertSorted]
    split_ifs
    · exact List.Perm.refl _
    · exact (List.Perm.cons y ih).trans (List.Perm.swap x y ys)

theorem sortNames_perm (l : List String) : (sortNames l).Perm l := by
  induction l with
  | nil => exact List.Perm.refl _
  | cons x xs ih =>
    exact (insertSorted_perm x (sortNames xs)).trans (List.Perm.cons x ih)

theorem insertSorted_mem (x z : String) (l : List String) (h : z ∈ insertSorted x l) :
    z = x ∨ z ∈ l := by
  induction l with
  | nil =>
    simp only [insertSorted, List.mem_singleton] at h
    exact Or.inl h
  | cons y ys ih =>
    simp only [insertSorted] at h
    split_ifs at h
    · rcases List.mem_cons.mp h with h | h
      · exact Or.inl h
      · exact Or.inr h
    · rcases List.mem_cons.mp h with h | h
      · exact Or.inr (List.mem_cons.mpr (Or.inl h))
      · rcases ih h with h | h
        · exact Or.inl h
        · exact Or.inr (List.mem_cons.mpr (Or.inr h))

theorem insertSorted_sorted (x : String) (l : List String)
    (hs : l.Pairwise (fun a b => strLe a b = true)) :
    (insertSorted x l).Pairwise (fun a b => strLe a b = true) := by
  induction l with
  | nil => simp [insertSorted]
  | cons y ys ih =>
    rcases List.pairwise_cons.mp hs with ⟨hy, hys⟩
    simp only [insertSorted]
    split_ifs with hxy
    · refine List.pairwise_cons.mpr ⟨?_, hs⟩
      intro z hz
      rcases List.mem_cons.mp hz with h | h
      · subst h; exact hxy
      · exact strLe_trans x y z hxy (hy z h)
    · refine List.pairwise_cons.mpr ⟨?_, ih hys⟩
      intro z hz
      rcases insertSorted_mem x z ys hz with h | h
      · rw [h]
        rcases strLe_total x y with hxle | hyx
        · exact absurd hxle hxy
        · exact hyx
      · exact hy z h

theorem sortNames_sorted (l : List String) :
    (sortNames l).Pairwise (fun a b => strLe a b = true) := by
  induction l with
  | nil => simp [sortNames]
  | cons x xs ih => exact insertSorted_sorted x (sortNames xs) ih

/-! ### Helper lemmas about the encode loop and the orchestrator -/

theorem renderFrameEvents_tag (n w h i : ℕ) (e : Event)
    (he : e ∈ renderFrameEvents n w h i) : evFrameIdx e = some i := by
  by_cases hc : i < n - 1 <;>
    simp only [renderFrameEvents, renderPassEvents, encodeFrameEvents, hc, if_true, if_false,
      List.cons_append, List.nil_append, List.append_nil, List.mem_cons, List.mem_singleton,
      List.not_mem_nil, or_false] at he <;>
    first
      | (rcases he with he | he | he | he | he | he | he | he | he <;> subst he <;> rfl)
      | (rcases he with he | he | he | he | he | he | he | he <;> subst he <;> rfl)

theorem encodeLoop_mem (n w h : ℕ) (e : Event) :
    ∀ (fs : List Bitmap) (i : ℕ),
      e ∈ encodeLoop n w h fs i ↔
        ∃ j, i ≤ j ∧ j < i + fs.length ∧ e ∈ renderFrameEvents n w h j := by
  intro fs
  induction fs with
  | nil =>
    intro i
    constructor
    · intro hmem
      exact absurd hmem (by simp [encodeLoop])
    · rintro ⟨j, h1, h2, _⟩
      simp only [List.length_nil, Nat.add_zero] at h2
      omega
  | cons f rest ih =>
    intro i
    simp only [encodeLoop, List.mem_append, List.length_cons, ih (i + 1)]
    constructor
    · rintro (he | ⟨j, h1, h2, he⟩)
      · exact ⟨i, le_refl i, by omega, he⟩
      · exact ⟨j, by omega, by omega, he⟩
    · rintro ⟨j, h1, h2, he⟩
      by_cases hj : j = i
      · subst hj; exact Or.inl he
      · exact Or.inr ⟨j, by omega, by omega, he⟩

theorem encodeLoop_not_mem_untagged (n w h : ℕ) (fs : List Bitmap) (i : ℕ) (e : Event)
    (he : evFrameIdx e = none) : e ∉ encodeLoop n w h fs i := by
  intro hmem
  rcases (encodeLoop_mem n w h e fs i).mp hmem with ⟨j, _, _, hj⟩
  have htag := renderFrameEvents_tag n w h j e hj
  rw [he] at htag
  exact Option.noConfusion htag

theorem encodeLoop_append (n w h : ℕ) :
    ∀ (as bs : List Bitmap) (i : ℕ),
      encodeLoop n w h (as ++ bs) i
        = encodeLoop n w h as i ++ encodeLoop n w h bs (i + as.length) := by
  intro as
  induction as with
  | nil => intro bs i; simp [encodeLoop]
  | cons f rest ih =>
    intro bs i
    show renderFrameEvents n w h i ++ encodeLoop n w h (rest ++ bs) (i + 1)
        = (renderFrameEvents n w h i ++ encodeLoop n w h rest (i + 1))
          ++ encodeLoop n w h bs (i + (rest.length + 1))
    rw [ih bs (i + 1), List.append_assoc]
    have harith : i + 1 + rest.length = i + (rest.length + 1) := by omega
    rw [harith]

theorem not_mem_renderFrameEvents_ne (n w h i : ℕ) (e : Event) (k : ℕ)
    (he : evFrameIdx e = some k) (hne : k ≠ i) :
    e ∉ renderFrameEvents n w h i := by
  intro hmem
  have htag := renderFrameEvents_tag n w h i e hmem
  rw [he] at htag
  exact hne (Option.some_injective ℕ htag)

theorem encodeLoop_count (n w h : ℕ) (e : Event) (k : ℕ) (he : evFrameIdx e = some k) :
    ∀ (fs : List Bitmap) (i : ℕ),
      List.count e (encodeLoop n w h fs i) =
        if i ≤ k ∧ k < i + fs.length then List.count e (renderFrameEvents n w h k) else 0 := by
  intro fs
  induction fs with
  | nil =>
    intro i
    simp only [List.length_nil, Nat.add_zero]
    rw [if_neg (by omega)]
    rfl
  | cons f rest ih =>
    intro i
    simp only [encodeLoop, List.count_append, ih (i + 1), List.length_cons]
    by_cases hik : i = k
    · subst hik
      rw [if_neg (by omega), if_pos (by omega), Nat.add_zero]
    · have hnot : e ∉ renderFrameEvents n w h i :=
        not_mem_renderFrameEvents_ne n w h i e k he (fun hkeq => hik hkeq.symm)
      rw [List.count_eq_zero.mpr hnot]
      by_cases h2 : i + 1 ≤ k ∧ k < i + 1 + rest.length
      · rw [if_pos h2, if_pos (by omega), Nat.zero_add]
      · rw [if_neg h2, if_neg (by omega), Nat.zero_add]

theorem countP_adv_renderFrameEvents (n w h i : ℕ) :
    List.countP isAdvance (renderFrameEvents n w h i) = if i < n - 1 then 1 else 0 := by
  by_cases hc : i < n - 1 <;>
    simp [renderFrameEvents, renderPassEvents, encodeFrameEvents, hc, isAdvance,
      List.countP_cons, List.countP_append]

theorem encodeLoop_countP_adv (n w h : ℕ) :
    ∀ (fs : List Bitmap) (i : ℕ), i + fs.length = n →
      List.countP isAdvance (encodeLoop n w h fs i) = n - 1 - i := by
  intro fs
  induction fs with
  | nil =>
    intro i hlen
    simp only [List.length_nil, Nat.add_zero] at hlen
    subst hlen
    simp [encodeLoop]
  | cons f rest ih =>
    intro i hlen
    simp only [List.length_cons] at hlen
    simp only [encodeLoop, List.countP_append]
    rw [ih (i + 1) (by omega), countP_adv_renderFrameEvents]
    by_cases hc : i < n - 1
    · rw [if_pos hc]; omega
    · rw [if_neg hc]; omega

theorem encodeLoop_countP_zero (p : Event → Bool) (hp : ∀ e, p e = true → evFrameIdx e = none)
    (n w h : ℕ) (fs : List Bitmap) (i : ℕ) :
    List.countP p (encodeLoop n w h fs i) = 0 := by
  rw [List.countP_eq_zero]
  intro e hmem hpe
  rcases (encodeLoop_mem n w h e fs i).mp hmem with ⟨j, _, _, hj⟩
  have htag := renderFrameEvents_tag n w h j e hj
  rw [hp e hpe] at htag
  exact Option.noConfusion htag

theorem isFlush_tag (e : Event) (he : isFlush e = true) : evFrameIdx e = none := by
  cases e <;> first | rfl | (exact absurd he (by simp [isFlush]))

theorem isContainerPropsSet_tag (e : Event) (he : isContainerPropsSet e = true) :
    evFrameIdx e = none := by
  cases e <;> first | rfl | (exact absurd he (by simp [isContainerPropsSet]))

theorem mainAsync_empty (inp : PipelineInput)
    (hf : loadBitmaps inp.framesDir = Except.ok []) :
    mainAsync inp = ([Event.framesLoaded 0, Event.noFramesLog], Except.ok ()) := by
  simp only [mainAsync, hf]

theorem mainAsync_success (inp : PipelineInput) (f0 : Bitmap) (rest bgs : List Bitmap)
    (hf : loadBitmaps inp.framesDir = Except.ok (f0 :: rest))
    (hdim : ∀ f ∈ f0 :: rest, f.width = f0.width ∧ f.height = f0.height)
    (hb : loadBitmaps inp.backgroundsDir = Except.ok bgs)
    (hbdim : ∀ b ∈ bgs, b.width = f0.width ∧ b.height = f0.height) :
    mainAsync inp = (successTrace (f0 :: rest) bgs f0.width f0.height, Except.ok ()) := by
  have hall : (f0 :: rest).all (fun f => f.width == f0.width && f.height == f0.height) = true := by
    rw [List.all_eq_true]
    intro f hfmem
    rcases hdim f hfmem with ⟨h1, h2⟩
    simp [h1, h2]
  have hball : bgs.all (fun b => b.width == f0.width && b.height == f0.height) = true := by
    rw [List.all_eq_true]
    intro b hbmem
    rcases hbdim b hbmem with ⟨h1, h2⟩
    simp [h1, h2]
  simp only [mainAsync, hf, hall, hb, hball, if_true]

theorem mainAsync_frames_mismatch (inp : PipelineInput) (f0 : Bitmap) (rest : List Bitmap)
    (hf : loadBitmaps inp.framesDir = Except.ok (f0 :: rest))
    (hmis : ∃ f ∈ f0 :: rest, ¬(f.width = f0.width ∧ f.height = f0.height)) :
    mainAsync inp
      = ([Event.framesLoaded (f0 :: rest).length], Except.error GifError.dimensionMismatch) := by
  have hall : (f0 :: rest).all (fun f => f.width == f0.width && f.height == f0.height) = false := by
    rcases hmis with ⟨f, hfmem, hfne⟩
    rw [List.all_eq_false]
    refine ⟨f, hfmem, ?_⟩
    simp only [Bool.and_eq_true, beq_iff_eq, not_and] at hfne ⊢
    exact hfne
  simp only [mainAsync, hf, hall, if_false, Bool.false_eq_true]

theorem mainAsync_bgs_mismatch (inp : PipelineInput) (f0 : Bitmap) (rest bgs : List Bitmap)
    (hf : loadBitmaps inp.framesDir = Except.ok (f0 :: rest))
    (hdim : ∀ f ∈ f0 :: rest, f.width = f0.width ∧ f.height = f0.height)
    (hb : loadBitmaps inp.backgroundsDir = Except.ok bgs)
    (hbmis : ∃ b ∈ bgs, ¬(b.width = f0.width ∧ b.height = f0.height)) :
    mainAsync inp
      = ([Event.framesLoaded (f0 :: rest).length, Event.backgroundsLoaded bgs.length],
         Except.error GifError.dimensionMismatch) := by
  have hall : (f0 :: rest).all (fun f => f.width == f0.width && f.height == f0.height) = true := by
    rw [List.all_eq_true]
    intro f hfmem
    rcases hdim f hfmem with ⟨h1, h2⟩
    simp [h1, h2]
  have hball : bgs.all (fun b => b.width == f0.width && b.height == f0.height) = false := by
    rcases hbmis with ⟨b, hbmem, hbne⟩
    rw [List.all_eq_false]
    refine ⟨b, hbmem, ?_⟩
    simp only [Bool.and_eq_true, beq_iff_eq, not_and] at hbne ⊢
    exact hbne
  simp only [mainAsync, hf, hall, hb, hball, if_true, if_false, Bool.false_eq_true]

theorem encodeLoop_decomp (n w h : ℕ) (fs : List Bitmap) (i : ℕ) (hi : i < fs.length) :
    encodeLoop n w h fs 0
      = encodeLoop n w h (fs.take i) 0
        ++ (renderFrameEvents n w h i ++ encodeLoop n w h (fs.drop (i + 1)) (i + 1)) := by
  conv_lhs => rw [← List.take_append_drop i fs]
  rw [encodeLoop_append]
  have hlen : (fs.take i).length = i := by rw [List.length_take]; omega
  rw [hlen, Nat.zero_add, List.drop_eq_getElem_cons hi]
  rfl

theorem headerEvents_tag (nf nb : ℕ) (e : Event) (he : e ∈ headerEvents nf nb) :
    evFrameIdx e = none := by
  simp only [headerEvents, List.mem_cons, List.mem_singleton, List.not_mem_nil, or_false] at he
  rcases he with he | he | he | he | he | he <;> subst he <;> rfl

theorem headerEvents_count_tagged (nf nb : ℕ) (e : Event) (k : ℕ)
    (he : evFrameIdx e = some k) : List.count e (headerEvents nf nb) = 0 := by
  rw [List.count_eq_zero]
  intro hmem
  have hnone := headerEvents_tag nf nb e hmem
  rw [he] at hnone
  exact Option.noConfusion hnone

theorem tailEvents_tag (e : Event) (he : e ∈ [Event.flushed, Event.doneLog]) :
    evFrameIdx e = none := by
  simp only [List.mem_cons, List.mem_singleton, List.not_mem_nil, or_false] at he
  rcases he with he | he <;> subst he <;> rfl

theorem tailEvents_count_tagged (e : Event) (k : ℕ) (he : evFrameIdx e = some k) :
    List.count e [Event.flushed, Event.doneLog] = 0 := by
  rw [List.count_eq_zero]
  intro hmem
  have hnone := tailEvents_tag e hmem
  rw [he] at hnone
  exact Option.noConfusion hnone

theorem successTrace_count_tagged (frames bgs : List Bitmap) (w h : ℕ) (e : Event) (k : ℕ)
    (he : evFrameIdx e = some k) (hk : k < frames.length) :
    List.count e (successTrace frames bgs w h)
      = List.count e (renderFrameEvents frames.length w h k) := by
  simp only [successTrace, List.count_append]
  rw [headerEvents_count_tagged _ _ e k he, tailEvents_count_tagged e k he,
    encodeLoop_count frames.length w h e k he frames 0, if_pos (by omega)]
  omega

theorem count_rfe_self (n w h k : ℕ) :
    List.count (Event.beginDraw k) (renderFrameEvents n w h k) = 1
    ∧ List.count (Event.drewTemplate k) (renderFrameEvents n w h k) = 1
    ∧ List.count (Event.drewFrame k) (renderFrameEvents n w h k) = 1
    ∧ List.count (Event.endDraw k) (renderFrameEvents n w h k) = 1
    ∧ List.count (Event.copiedToStaging k) (renderFrameEvents n w h k) = 1
    ∧ List.count (Event.bytesExtracted k) (renderFrameEvents n w h k) = 1
    ∧ List.count (Event.delaySet k (frameDelay % 65536)) (renderFrameEvents n w h k) = 1
    ∧ List.count (Event.pixelsCommitted k PixFormat.bgra8 AlphaMode.premultiplied w h 1 1)
        (renderFrameEvents n w h k) = 1 := by
  by_cases hc : k < n - 1 <;>
    simp [renderFrameEvents, renderPassEvents, encodeFrameEvents, hc,
      List.count_cons, List.count_append, List.count_nil]

theorem count_rfe_adv (n w h k : ℕ) :
    List.count (Event.advancedFrame k) (renderFrameEvents n w h k)
      = if k < n - 1 then 1 else 0 := by
  by_cases hc : k < n - 1 <;>
    simp [renderFrameEvents, renderPassEvents, encodeFrameEvents, hc,
      List.count_cons, List.count_append, List.count_nil]

theorem mem_rfe_delay (n w h j i t : ℕ)
    (hmem : Event.delaySet i t ∈ renderFrameEvents n w h j) :
    i = j ∧ t = frameDelay % 65536 := by
  by_cases hc : j < n - 1 <;>
    simp only [renderFrameEvents, renderPassEvents, encodeFrameEvents, hc, if_true, if_false,
      List.cons_append, List.nil_append, List.append_nil, List.mem_cons, List.mem_singleton,
      List.not_mem_nil, or_false] at hmem <;>
    simp only [Event.delaySet.injEq] at hmem <;>
    simp_all

theorem mem_rfe_pixels (n w h j i : ℕ) (fmt : PixFormat) (am : AlphaMode)
    (w2 h2 : ℕ) (dx dy : ℚ)
    (hmem : Event.pixelsCommitted i fmt am w2 h2 dx dy ∈ renderFrameEvents n w h j) :
    i = j ∧ fmt = PixFormat.bgra8 ∧ am = AlphaMode.premultiplied ∧ w2 = w ∧ h2 = h
      ∧ dx = 1 ∧ dy = 1 := by
  by_cases hc : j < n - 1 <;>
    simp only [renderFrameEvents, renderPassEvents, encodeFrameEvents, hc, if_true, if_false,
      List.cons_append, List.nil_append, List.append_nil, List.mem_cons, List.mem_singleton,
      List.not_mem_nil, or_false] at hmem <;>
    simp only [Event.pixelsCommitted.injEq] at hmem <;>
    simp_all

theorem mem_rfe_adv (n w h j i : ℕ)
    (hmem : Event.advancedFrame i ∈ renderFrameEvents n w h j) :
    i = j ∧ j < n - 1 := by
  by_cases hc : j < n - 1 <;>
    simp only [renderFrameEvents, renderPassEvents, encodeFrameEvents, hc, if_true, if_false,
      List.cons_append, List.nil_append, List.append_nil, List.mem_cons, List.mem_singleton,
      List.not_mem_nil, or_false] at hmem <;>
    simp_all

theorem beginDraw_mem_rfe (n w h j : ℕ) :
    Event.beginDraw j ∈ renderFrameEvents n w h j := by
  simp [renderFrameEvents, renderPassEvents]

theorem pixels_mem_rfe (n w h j : ℕ) :
    Event.pixelsCommitted j PixFormat.bgra8 AlphaMode.premultiplied w h 1 1
      ∈ renderFrameEvents n w h j := by
  simp [renderFrameEvents, renderPassEvents, encodeFrameEvents]

theorem encodeLoop_no_containerProps (n w h : ℕ) (fs : List Bitmap) (i : ℕ) (e : Event)
    (he : e ∈ encodeLoop n w h fs i) : isContainerPropsSet e = false := by
  cases e <;> first
    | rfl
    | exact absurd he (encodeLoop_not_mem_untagged n w h fs i _ rfl)

theorem encodeLoop_no_flush (n w h : ℕ) (fs : List Bitmap) (i : ℕ) (e : Event)
    (he : e ∈ encodeLoop n w h fs i) : isFlush e = false := by
  cases e <;> first
    | rfl
    | exact absurd he (encodeLoop_not_mem_untagged n w h fs i _ rfl)

theorem successTrace_decomp (frames bgs : List Bitmap) (w h i : ℕ) (hi : i < frames.length) :
    successTrace frames bgs w h
      = headerEvents frames.length bgs.length
        ++ (encodeLoop frames.length w h (frames.take i) 0
            ++ (Event.beginDraw i :: Event.drewTemplate i :: Event.drewFrame i
                :: Event.endDraw i :: Event.copiedToStaging i :: Event.bytesExtracted i
                :: Event.delaySet i (frameDelay % 65536)
                :: Event.pixelsCommitted i PixFormat.bgra8 AlphaMode.premultiplied w h 1 1
                :: ((if i < frames.length - 1 then [Event.advancedFrame i] else [])
                    ++ (encodeLoop frames.length w h (frames.drop (i + 1)) (i + 1)
                        ++ [Event.flushed, Event.doneLog])))) := by
  rw [successTrace, encodeLoop_decomp frames.length w h frames i hi]
  simp only [renderFrameEvents, renderPassEvents, encodeFrameEvents, List.append_assoc,
    List.cons_append, List.nil_append]

/-! ### Claim theorems -/

/-- C1: for every Background Set (including the empty one) and Frame Set
dimensions (W,H), the background template has dimensions (W,H), equals the
opaque-white canvas when the Background Set is empty, and otherwise equals
the result of clearing to opaque white and then drawing each background
source-over in input order; a later background occludes what lies under it
wherever its pixels are opaque. -/
theorem background_template_correct (w h : ℕ) (bgs : List Bitmap) :
    (backgroundTemplate w h bgs).width = w
    ∧ (backgroundTemplate w h bgs).height = h
    ∧ (bgs = [] → backgroundTemplate w h bgs = clearCanvas w h whiteColor)
    ∧ backgroundTemplate w h bgs = specBackgroundComposite w h bgs
    ∧ (∀ (b : Bitmap) (x y : ℕ), x < b.width → y < b.height → (b.pixel x y).a = 1 →
        (backgroundTemplate w h (bgs ++ [b])).pixel x y = b.pixel x y) := by
  refine ⟨?_, ?_, ?_, backgroundTemplate_eq_spec w h bgs, ?_⟩
  · rw [backgroundTemplate, execCmds_width]; rfl
  · rw [backgroundTemplate, execCmds_height]; rfl
  · intro hempty
    subst hempty
    rfl
  · intro b x y hx hy ha
    rw [backgroundTemplate_eq_spec, specBackgroundComposite, List.foldl_append]
    show (drawBitmap (List.foldl drawBitmap (clearCanvas w h whiteColor) bgs) b).pixel x y
        = b.pixel x y
    simp only [drawBitmap]
    rw [if_pos ⟨hx, hy⟩]
    exact srcOver_opaque _ _ ha

/-- Witness for C1 at concrete inputs: the empty Background Set yields the
white canvas, and an opaque red background drawn last determines the pixel. -/
theorem background_template_correct_witness :
    backgroundTemplate 2 1 [] = clearCanvas 2 1 whiteColor
    ∧ (backgroundTemplate 2 1 ([] ++ [solidBitmap 2 1 redColor])).pixel 0 0
        = (solidBitmap 2 1 redColor).pixel 0 0 := by
  refine ⟨(background_template_correct 2 1 []).2.2.1 rfl, ?_⟩
  exact (background_template_correct 2 1 []).2.2.2.2 (solidBitmap 2 1 redColor) 0 0
    (by decide) (by decide) rfl

/-- C7: the loader fails with the invalid-path error when the path is not
a directory; otherwise it keeps exactly the regular files carrying the
png extension, sorts their names ascending in byte/lexicographic order,
and returns the decoded images in that same sorted order. -/
theorem loader_filters_and_sorts :
    loadBitmaps (none : Dir) = Except.error GifError.invalidPath
    ∧ ∀ entries : List Entry, ∃ ns : List String,
        ns.Pairwise (fun a b => strLe a b = true)
        ∧ ns.Perm ((entries.filter isPngFile).map Entry.name)
        ∧ loadBitmaps (some entries) = Except.ok (ns.map (imageNamed entries)) := by
  refine ⟨rfl, ?_⟩
  intro entries
  refine ⟨sortNames ((entries.filter isPngFile).map Entry.name), ?_, ?_, rfl⟩
  · exact sortNames_sorted _
  · exact sortNames_perm _

/-- C8: a run whose Frame Set is empty ends successfully and early: the
no-frames message is logged, no output frame is written, no error is
raised, and the process exit code is 0. -/
theorem empty_frames_early_success (inp : PipelineInput)
    (hf : loadBitmaps inp.framesDir = Except.ok []) :
    mainAsync inp = ([Event.framesLoaded 0, Event.noFramesLog], Except.ok ())
    ∧ wmainExitCode inp = some 0
    ∧ ∀ e ∈ (mainAsync inp).1, isFrameWrite e = false := by
  have hm := mainAsync_empty inp hf
  refine ⟨hm, ?_, ?_⟩
  · rw [wmainExitCode, hm]
  · rw [hm]
    intro e he
    simp only [List.mem_cons, List.mem_singleton, List.not_mem_nil, or_false] at he
    rcases he with he | he <;> subst he <;> rfl

/-- Witness for C8 at a concrete run with an imageless frames directory. -/
theorem empty_frames_early_success_witness :
    mainAsync emptyFramesInput = ([Event.framesLoaded 0, Event.noFramesLog], Except.ok ())
    ∧ wmainExitCode emptyFramesInput = some 0
    ∧ ∀ e ∈ (mainAsync emptyFramesInput).1, isFrameWrite e = false :=
  empty_frames_early_success emptyFramesInput rfl

/-- C10: when the frames directory yields no images the run returns early
and successfully without the backgrounds directory influencing anything:
the result equals the result with a nonexistent backgrounds path. -/
theorem empty_frames_skip_backgrounds (fd bd : Dir)
    (hf : loadBitmaps fd = Except.ok []) :
    mainAsync ⟨fd, bd⟩ = mainAsync ⟨fd, (none : Option (List Entry))⟩
    ∧ (mainAsync ⟨fd, bd⟩).2 = Except.ok () := by
  have h1 := mainAsync_empty ⟨fd, bd⟩ hf
  have h2 := mainAsync_empty ⟨fd, (none : Option (List Entry))⟩ hf
  refine ⟨h1.trans h2.symm, ?_⟩
  rw [h1]

/-- Witness for C10: an imageless frames directory beside a backgrounds
directory that would itself load fine; the outcome matches the run whose
backgrounds path is invalid. -/
theorem empty_frames_skip_backgrounds_witness :
    mainAsync ⟨emptyDir, demoFramesDir⟩ = mainAsync ⟨emptyDir, (none : Option (List Entry))⟩
    ∧ (mainAsync ⟨emptyDir, demoFramesDir⟩).2 = Except.ok () :=
  empty_frames_skip_backgrounds emptyDir demoFramesDir rfl

/-- C2: when any loaded frame disagrees with the first frame's dimensions,
or any loaded background disagrees with the Frame Set dimensions, the run
aborts with the dimension-mismatch error and its trace contains no
rendering or encoding activity (no template draw, no frame render, no
encoder interaction). -/
theorem dimension_mismatch_aborts (inp : PipelineInput) (frames bgs : List Bitmap)
    (f0 : Bitmap) (rest : List Bitmap)
    (hf : loadBitmaps inp.framesDir = Except.ok frames)
    (hfr : frames = f0 :: rest)
    (hb : loadBitmaps inp.backgroundsDir = Except.ok bgs)
    (hmis : (∃ f ∈ frames, ¬(f.width = f0.width ∧ f.height = f0.height))
          ∨ (∃ b ∈ bgs, ¬(b.width = f0.width ∧ b.height = f0.height))) :
    (mainAsync inp).2 = Except.error GifError.dimensionMismatch
    ∧ ∀ e ∈ (mainAsync inp).1, isRenderOrEncodeEvent e = false := by
  subst hfr
  rcases hmis with ⟨f, hm, hn⟩ | ⟨b, hm, hn⟩
  · rw [mainAsync_frames_mismatch inp f0 rest hf ⟨f, hm, hn⟩]
    refine ⟨rfl, ?_⟩
    intro e he
    simp only [List.mem_singleton] at he
    subst he
    rfl
  · by_cases hdim : ∀ f ∈ f0 :: rest, f.width = f0.width ∧ f.height = f0.height
    · rw [mainAsync_bgs_mismatch inp f0 rest bgs hf hdim hb ⟨b, hm, hn⟩]
      refine ⟨rfl, ?_⟩
      intro e he
      simp only [List.mem_cons, List.mem_singleton, List.not_mem_nil, or_false] at he
      rcases he with he | he <;> subst he <;> rfl
    · have hex : ∃ f ∈ f0 :: rest, ¬(f.width = f0.width ∧ f.height = f0.height) := by
        by_contra hno
        push_neg at hno
        exact hdim fun f hf2 => hno f hf2
      rw [mainAsync_frames_mismatch inp f0 rest hf hex]
      refine ⟨rfl, ?_⟩
      intro e he
      simp only [List.mem_singleton] at he
      subst he
      rfl

/-- Witness for C2 at a concrete run whose second frame is wider than the
first. -/
theorem dimension_mismatch_aborts_witness :
    (mainAsync demoMismatchInput).2 = Except.error GifError.dimensionMismatch
    ∧ ∀ e ∈ (mainAsync demoMismatchInput).1, isRenderOrEncodeEvent e = false :=
  dimension_mismatch_aborts demoMismatchInput [bmpRed, bmpWide] [] bmpRed [bmpWide]
    rfl rfl rfl
    (Or.inl ⟨bmpWide, List.mem_cons_of_mem _ (List.mem_singleton.mpr rfl), by decide⟩)

/-- C9 counterexample: a run whose Frame Set contains exactly one frame
(the first trace event records one loaded frame) and whose dimensions all
agree completes successfully rather than raising the dimension-mismatch
error the claim asserts for one-frame runs. -/
theorem one_frame_counterexample :
    (mainAsync oneFrameInput).1.head? = some (Event.framesLoaded 1)
    ∧ (mainAsync oneFrameInput).2 = Except.ok () :=
  ⟨rfl, rfl⟩

/-- C9 (amended): mismatched dimensions among frames or backgrounds abort
with the dimension-mismatch error before any rendering occurs; a run with
exactly one frame and well-sized backgrounds instead succeeds, committing
that single frame and never invoking the encoder's frame advance. -/
theorem one_frame_and_mismatch_behavior (inp : PipelineInput) (f0 : Bitmap) (bgs : List Bitmap)
    (hf : loadBitmaps inp.framesDir = Except.ok [f0])
    (hb : loadBitmaps inp.backgroundsDir = Except.ok bgs) :
    ((∃ b ∈ bgs, ¬(b.width = f0.width ∧ b.height = f0.height)) →
      (mainAsync inp).2 = Except.error GifError.dimensionMismatch
      ∧ ∀ e ∈ (mainAsync inp).1, isRenderOrEncodeEvent e = false)
    ∧ ((∀ b ∈ bgs, b.width = f0.width ∧ b.height = f0.height) →
      (mainAsync inp).2 = Except.ok ()
      ∧ List.countP isPixelsCommitted (mainAsync inp).1 = 1
      ∧ List.countP isAdvance (mainAsync inp).1 = 0) := by
  have hdim : ∀ f ∈ [f0], f.width = f0.width ∧ f.height = f0.height := by
    intro f hf2
    rw [List.mem_singleton] at hf2
    subst hf2
    exact ⟨rfl, rfl⟩
  constructor
  · intro hbmis
    rw [mainAsync_bgs_mismatch inp f0 [] bgs hf hdim hb hbmis]
    refine ⟨rfl, ?_⟩
    intro e he
    simp only [List.mem_cons, List.mem_singleton, List.not_mem_nil, or_false] at he
    rcases he with he | he <;> subst he <;> rfl
  · intro hbdim
    rw [mainAsync_success inp f0 [] bgs hf hdim hb hbdim]
    refine ⟨rfl, ?_, ?_⟩ <;>
      simp [successTrace, headerEvents, encodeLoop, renderFrameEvents, renderPassEvents,
        encodeFrameEvents, isPixelsCommitted, isAdvance, List.countP_append, List.countP_cons]

/-- Witness for the amended C9 at a concrete one-frame run. -/
theorem one_frame_and_mismatch_behavior_witness :
    (mainAsync oneFrameInput).2 = Except.ok ()
    ∧ List.countP isPixelsCommitted (mainAsync oneFrameInput).1 = 1
    ∧ List.countP isAdvance (mainAsync oneFrameInput).1 = 0 :=
  (one_frame_and_mismatch_behavior oneFrameInput bmpRed [] rfl rfl).2
    fun b hb2 => absurd hb2 (List.not_mem_nil b)

/-- C3: immediately after the encoder is constructed and before any frame
is written, exactly one container-level metadata write happens: the
application-block tag with the 11 ASCII bytes of the NETSCAPE2.0 text and
the 5-byte looping data block with values 3, 1, 0, 0, 0; no other
container-level write occurs anywhere in the run. -/
theorem container_metadata_once (inp : PipelineInput) (f0 : Bitmap) (rest bgs : List Bitmap)
    (hf : loadBitmaps inp.framesDir = Except.ok (f0 :: rest))
    (hdim : ∀ f ∈ f0 :: rest, f.width = f0.width ∧ f.height = f0.height)
    (hb : loadBitmaps inp.backgroundsDir = Except.ok bgs)
    (hbdim : ∀ b ∈ bgs, b.width = f0.width ∧ b.height = f0.height) :
    ∃ p q, (mainAsync inp).1 = p ++ Event.containerPropsSet netscapeBytes loopDataBytes :: q
      ∧ netscapeBytes = [78, 69, 84, 83, 67, 65, 80, 69, 50, 46, 48]
      ∧ netscapeBytes.length = 11
      ∧ loopDataBytes = [3, 1, 0, 0, 0]
      ∧ (∀ e ∈ p, isContainerPropsSet e = false)
      ∧ (∀ e ∈ q, isContainerPropsSet e = false)
      ∧ (∀ e ∈ p, isFrameWrite e = false) := by
  rw [mainAsync_success inp f0 rest bgs hf hdim hb hbdim]
  refine ⟨[Event.framesLoaded (f0 :: rest).length, Event.backgroundsLoaded bgs.length,
      Event.outputFileCreated, Event.templateDrawn, Event.streamOpened],
    encodeLoop (f0 :: rest).length f0.width f0.height (f0 :: rest) 0
      ++ [Event.flushed, Event.doneLog],
    ?_, by decide, by decide, rfl, ?_, ?_, ?_⟩
  · simp [successTrace, headerEvents]
  · intro e he
    simp only [List.mem_cons, List.mem_singleton, List.not_mem_nil, or_false] at he
    rcases he with he | he | he | he | he <;> subst he <;> rfl
  · intro e he
    rcases List.mem_append.mp he with he | he
    · exact encodeLoop_no_containerProps _ _ _ _ _ e he
    · simp only [List.mem_cons, List.mem_singleton, List.not_mem_nil, or_false] at he
      rcases he with he | he <;> subst he <;> rfl
  · intro e he
    simp only [List.mem_cons, List.mem_singleton, List.not_mem_nil, or_false] at he
    rcases he with he | he | he | he | he <;> subst he <;> rfl

/-- Witness for C3 at a concrete two-frame run. -/
theorem container_metadata_once_witness :
    ∃ p q, (mainAsync demoInput).1
        = p ++ Event.containerPropsSet netscapeBytes loopDataBytes :: q
      ∧ netscapeBytes = [78, 69, 84, 83, 67, 65, 80, 69, 50, 46, 48]
      ∧ netscapeBytes.length = 11
      ∧ loopDataBytes = [3, 1, 0, 0, 0]
      ∧ (∀ e ∈ p, isContainerPropsSet e = false)
      ∧ (∀ e ∈ q, isContainerPropsSet e = false)
      ∧ (∀ e ∈ p, isFrameWrite e = false) :=
  container_metadata_once demoInput bmpRed [bmpGreen] [] rfl
    (by
      intro f hf2
      simp only [List.mem_cons, List.mem_singleton, List.not_mem_nil, or_false] at hf2
      rcases hf2 with h | h <;> subst h <;> exact ⟨rfl, rfl⟩)
    rfl
    (fun b hb2 => absurd hb2 (List.not_mem_nil b))

/-- C4: for every frame index, the per-frame delay property is set exactly
once, always to the constant 13 ticks (the hardcoded delay reduced as an
unsigned 16-bit value), before that frame's pixel data is committed; the
pixel data is committed exactly once, in Bgra8 premultiplied format at
1:1 scale with the common Frame Set dimensions. -/
theorem frame_delay_and_pixel_data (inp : PipelineInput) (f0 : Bitmap) (rest bgs : List Bitmap)
    (hf : loadBitmaps inp.framesDir = Except.ok (f0 :: rest))
    (hdim : ∀ f ∈ f0 :: rest, f.width = f0.width ∧ f.height = f0.height)
    (hb : loadBitmaps inp.backgroundsDir = Except.ok bgs)
    (hbdim : ∀ b ∈ bgs, b.width = f0.width ∧ b.height = f0.height)
    (i : ℕ) (hi : i < (f0 :: rest).length) :
    List.count (Event.delaySet i 13) (mainAsync inp).1 = 1
    ∧ (∀ t, Event.delaySet i t ∈ (mainAsync inp).1 → t = 13)
    ∧ List.count (Event.pixelsCommitted i PixFormat.bgra8 AlphaMode.premultiplied
        f0.width f0.height 1 1) (mainAsync inp).1 = 1
    ∧ (∀ fmt am w2 h2 dx dy, Event.pixelsCommitted i fmt am w2 h2 dx dy ∈ (mainAsync inp).1 →
        fmt = PixFormat.bgra8 ∧ am = AlphaMode.premultiplied ∧ w2 = f0.width ∧ h2 = f0.height
        ∧ dx = 1 ∧ dy = 1)
    ∧ (∃ p q, (mainAsync inp).1 = p ++ q
        ∧ Event.delaySet i 13 ∈ p
        ∧ Event.pixelsCommitted i PixFormat.bgra8 AlphaMode.premultiplied
            f0.width f0.height 1 1 ∈ q) := by
  rw [mainAsync_success inp f0 rest bgs hf hdim hb hbdim]
  have h13 : frameDelay % 65536 = 13 := rfl
  refine ⟨?_, ?_, ?_, ?_, ?_⟩
  · rw [successTrace_count_tagged (f0 :: rest) bgs f0.width f0.height
      (Event.delaySet i 13) i rfl hi]
    have hcount := (count_rfe_self (f0 :: rest).length f0.width f0.height i).2.2.2.2.2.2.1
    rw [h13] at hcount
    exact hcount
  · intro t hmem
    simp only [successTrace, List.mem_append] at hmem
    rcases hmem with (hmem | hmem) | hmem
    · exact Option.noConfusion (headerEvents_tag _ _ _ hmem)
    · rcases (encodeLoop_mem _ _ _ _ _ _).mp hmem with ⟨j, _, _, hj⟩
      have := (mem_rfe_delay _ _ _ j i t hj).2
      rw [h13] at this
      exact this
    · exact Option.noConfusion (tailEvents_tag _ hmem)
  · rw [successTrace_count_tagged (f0 :: rest) bgs f0.width f0.height
      (Event.pixelsCommitted i PixFormat.bgra8 AlphaMode.premultiplied
        f0.width f0.height 1 1) i rfl hi]
    exact (count_rfe_self (f0 :: rest).length f0.width f0.height i).2.2.2.2.2.2.2
  · intro fmt am w2 h2 dx dy hmem
    simp only [successTrace, List.mem_append] at hmem
    rcases hmem with (hmem | hmem) | hmem
    · exact Option.noConfusion (headerEvents_tag _ _ _ hmem)
    · rcases (encodeLoop_mem _ _ _ _ _ _).mp hmem with ⟨j, _, _, hj⟩
      have hsh := mem_rfe_pixels _ _ _ j i fmt am w2 h2 dx dy hj
      exact ⟨hsh.2.1, hsh.2.2.1, hsh.2.2.2.1, hsh.2.2.2.2.1, hsh.2.2.2.2.2.1, hsh.2.2.2.2.2.2⟩
    · exact Option.noConfusion (tailEvents_tag _ hmem)
  · refine ⟨headerEvents (f0 :: rest).length bgs.length
        ++ (encodeLoop (f0 :: rest).length f0.width f0.height ((f0 :: rest).take i) 0
            ++ [Event.beginDraw i, Event.drewTemplate i, Event.drewFrame i, Event.endDraw i,
                Event.copiedToStaging i, Event.bytesExtracted i, Event.delaySet i 13]),
      Event.pixelsCommitted i PixFormat.bgra8 AlphaMode.premultiplied f0.width f0.height 1 1
        :: ((if i < (f0 :: rest).length - 1 then [Event.advancedFrame i] else [])
            ++ (encodeLoop (f0 :: rest).length f0.width f0.height ((f0 :: rest).drop (i + 1))
                  (i + 1)
                ++ [Event.flushed, Event.doneLog])),
      ?_, ?_, List.mem_cons_self _ _⟩
    · rw [successTrace_decomp (f0 :: rest) bgs f0.width f0.height i hi]
      simp [frameDelay, List.append_assoc]
    · simp

/-- Witness for C4 at frame 0 of a concrete two-frame run. -/
theorem frame_delay_and_pixel_data_witness :
    List.count (Event.delaySet 0 13) (mainAsync demoInput).1 = 1
    ∧ (∀ t, Event.delaySet 0 t ∈ (mainAsync demoInput).1 → t = 13)
    ∧ List.count (Event.pixelsCommitted 0 PixFormat.bgra8 AlphaMode.premultiplied
        bmpRed.width bmpRed.height 1 1) (mainAsync demoInput).1 = 1
    ∧ (∀ fmt am w2 h2 dx dy,
        Event.pixelsCommitted 0 fmt am w2 h2 dx dy ∈ (mainAsync demoInput).1 →
        fmt = PixFormat.bgra8 ∧ am = AlphaMode.premultiplied ∧ w2 = bmpRed.width
        ∧ h2 = bmpRed.height ∧ dx = 1 ∧ dy = 1)
    ∧ (∃ p q, (mainAsync demoInput).1 = p ++ q
        ∧ Event.delaySet 0 13 ∈ p
        ∧ Event.pixelsCommitted 0 PixFormat.bgra8 AlphaMode.premultiplied
            bmpRed.width bmpRed.height 1 1 ∈ q) :=
  frame_delay_and_pixel_data demoInput bmpRed [bmpGreen] [] rfl
    (by
      intro f hf2
      simp only [List.mem_cons, List.mem_singleton, List.not_mem_nil, or_false] at hf2
      rcases hf2 with h | h <;> subst h <;> exact ⟨rfl, rfl⟩)
    rfl
    (fun b hb2 => absurd hb2 (List.not_mem_nil b))
    0 (by decide)

/-- C5: in a run with N frames the frame advance happens exactly N-1
times, each time strictly between a frame's pixel commit and the next
frame's first draw, and never for the final frame; the flush happens
exactly once, after every frame's pixel data has been committed. -/
theorem advance_between_frames_flush_once (inp : PipelineInput) (f0 : Bitmap)
    (rest bgs : List Bitmap)
    (hf : loadBitmaps inp.framesDir = Except.ok (f0 :: rest))
    (hdim : ∀ f ∈ f0 :: rest, f.width = f0.width ∧ f.height = f0.height)
    (hb : loadBitmaps inp.backgroundsDir = Except.ok bgs)
    (hbdim : ∀ b ∈ bgs, b.width = f0.width ∧ b.height = f0.height) :
    List.countP isAdvance (mainAsync inp).1 = (f0 :: rest).length - 1
    ∧ (∀ i, Event.advancedFrame i ∈ (mainAsync inp).1 → i + 1 < (f0 :: rest).length)
    ∧ (∀ i, i + 1 < (f0 :: rest).length →
        List.count (Event.advancedFrame i) (mainAsync inp).1 = 1
        ∧ (∃ p q, (mainAsync inp).1 = p ++ q
            ∧ Event.pixelsCommitted i PixFormat.bgra8 AlphaMode.premultiplied
                f0.width f0.height 1 1 ∈ p
            ∧ Event.advancedFrame i ∈ q)
        ∧ (∃ p q, (mainAsync inp).1 = p ++ q
            ∧ Event.advancedFrame i ∈ p ∧ Event.beginDraw (i + 1) ∈ q))
    ∧ List.countP isFlush (mainAsync inp).1 = 1
    ∧ (∃ p, (mainAsync inp).1 = p ++ [Event.flushed, Event.doneLog]
        ∧ (∀ e ∈ p, isFlush e = false)
        ∧ (∀ i, i < (f0 :: rest).length →
            Event.pixelsCommitted i PixFormat.bgra8 AlphaMode.premultiplied
              f0.width f0.height 1 1 ∈ p)) := by
  rw [mainAsync_success inp f0 rest bgs hf hdim hb hbdim]
  refine ⟨?_, ?_, ?_, ?_, ?_⟩
  · simp only [successTrace, List.countP_append]
    rw [encodeLoop_countP_adv (f0 :: rest).length f0.width f0.height (f0 :: rest) 0 (by omega)]
    simp [headerEvents, isAdvance, List.countP_cons]
  · intro i hmem
    simp only [successTrace, List.mem_append] at hmem
    rcases hmem with (hmem | hmem) | hmem
    · exact Option.noConfusion (headerEvents_tag _ _ _ hmem)
    · rcases (encodeLoop_mem _ _ _ _ _ _).mp hmem with ⟨j, _, _, hj⟩
      rcases mem_rfe_adv _ _ _ j i hj with ⟨hij, hjn⟩
      omega
    · exact Option.noConfusion (tailEvents_tag _ hmem)
  · intro i hi2
    have hi : i < (f0 :: rest).length := by omega
    refine ⟨?_, ?_, ?_⟩
    · rw [successTrace_count_tagged (f0 :: rest) bgs f0.width f0.height
        (Event.advancedFrame i) i rfl hi, count_rfe_adv, if_pos (by omega)]
    · refine ⟨headerEvents (f0 :: rest).length bgs.length
          ++ (encodeLoop (f0 :: rest).length f0.width f0.height ((f0 :: rest).take i) 0
              ++ [Event.beginDraw i, Event.drewTemplate i, Event.drewFrame i, Event.endDraw i,
                  Event.copiedToStaging i, Event.bytesExtracted i, Event.delaySet i 13,
                  Event.pixelsCommitted i PixFormat.bgra8 AlphaMode.premultiplied
                    f0.width f0.height 1 1]),
        (if i < (f0 :: rest).length - 1 then [Event.advancedFrame i] else [])
          ++ (encodeLoop (f0 :: rest).length f0.width f0.height ((f0 :: rest).drop (i + 1))
                (i + 1)
              ++ [Event.flushed, Event.doneLog]),
        ?_, by simp, ?_⟩
      · rw [successTrace_decomp (f0 :: rest) bgs f0.width f0.height i hi]
        simp [frameDelay, List.append_assoc]
      · rw [if_pos (by omega : i < (f0 :: rest).length - 1)]
        simp
    · refine ⟨headerEvents (f0 :: rest).length bgs.length
          ++ (encodeLoop (f0 :: rest).length f0.width f0.height ((f0 :: rest).take i) 0
              ++ ([Event.beginDraw i, Event.drewTemplate i, Event.drewFrame i, Event.endDraw i,
                   Event.copiedToStaging i, Event.bytesExtracted i, Event.delaySet i 13,
                   Event.pixelsCommitted i PixFormat.bgra8 AlphaMode.premultiplied
                     f0.width f0.height 1 1]
                  ++ (if i < (f0 :: rest).length - 1 then [Event.advancedFrame i] else []))),
        encodeLoop (f0 :: rest).length f0.width f0.height ((f0 :: rest).drop (i + 1)) (i + 1)
          ++ [Event.flushed, Event.doneLog],
        ?_, ?_, ?_⟩
      · rw [successTrace_decomp (f0 :: rest) bgs f0.width f0.height i hi]
        simp [frameDelay, List.append_assoc]
      · rw [if_pos (by omega : i < (f0 :: rest).length - 1)]
        simp
      · refine List.mem_append.mpr (Or.inl ?_)
        refine (encodeLoop_mem _ _ _ _ _ _).mpr ⟨i + 1, le_refl _, ?_, beginDraw_mem_rfe _ _ _ _⟩
        rw [List.length_drop]
        omega
  · simp only [successTrace, List.countP_append]
    rw [encodeLoop_countP_zero isFlush isFlush_tag]
    simp [headerEvents, isFlush, List.countP_cons]
  · refine ⟨headerEvents (f0 :: rest).length bgs.length
        ++ encodeLoop (f0 :: rest).length f0.width f0.height (f0 :: rest) 0,
      by simp [successTrace, List.append_assoc], ?_, ?_⟩
    · intro e he
      rcases List.mem_append.mp he with he | he
      · simp only [headerEvents, List.mem_cons, List.mem_singleton, List.not_mem_nil,
          or_false] at he
        rcases he with he | he | he | he | he | he <;> subst he <;> rfl
      · exact encodeLoop_no_flush _ _ _ _ _ e he
    · intro i hi
      refine List.mem_append.mpr (Or.inr ?_)
      exact (encodeLoop_mem _ _ _ _ _ _).mpr ⟨i, Nat.zero_le i, by omega, pixels_mem_rfe _ _ _ _⟩

/-- Witness for C5 at a concrete two-frame run: exactly one frame advance. -/
theorem advance_between_frames_flush_once_witness :
    List.countP isAdvance (mainAsync demoInput).1 = 1
    ∧ List.countP isFlush (mainAsync demoInput).1 = 1 :=
  have hmain := advance_between_frames_flush_once demoInput bmpRed [bmpGreen] [] rfl
    (by
      intro f hf2
      simp only [List.mem_cons, List.mem_singleton, List.not_mem_nil, or_false] at hf2
      rcases hf2 with h | h <;> subst h <;> exact ⟨rfl, rfl⟩)
    rfl
    (fun b hb2 => absurd hb2 (List.not_mem_nil b))
  ⟨hmain.1, hmain.2.2.2.1⟩

/-- C6: every frame index, taken in ascending order, is processed by
exactly this contiguous sequence: begin draw, draw the background
template, draw the frame on top, end draw, copy the render target to the
staging texture, extract the bytes; each of these happens exactly once
per frame, and no drawing for the next frame occurs before this frame's
bytes are extracted. -/
theorem render_pass_sequence (inp : PipelineInput) (f0 : Bitmap) (rest bgs : List Bitmap)
    (hf : loadBitmaps inp.framesDir = Except.ok (f0 :: rest))
    (hdim : ∀ f ∈ f0 :: rest, f.width = f0.width ∧ f.height = f0.height)
    (hb : loadBitmaps inp.backgroundsDir = Except.ok bgs)
    (hbdim : ∀ b ∈ bgs, b.width = f0.width ∧ b.height = f0.height)
    (i : ℕ) (hi : i < (f0 :: rest).length) :
    (∃ p q, (mainAsync inp).1
        = p ++ (Event.beginDraw i :: Event.drewTemplate i :: Event.drewFrame i
            :: Event.endDraw i :: Event.copiedToStaging i :: Event.bytesExtracted i :: q))
    ∧ List.count (Event.beginDraw i) (mainAsync inp).1 = 1
    ∧ List.count (Event.drewTemplate i) (mainAsync inp).1 = 1
    ∧ List.count (Event.drewFrame i) (mainAsync inp).1 = 1
    ∧ List.count (Event.endDraw i) (mainAsync inp).1 = 1
    ∧ List.count (Event.copiedToStaging i) (mainAsync inp).1 = 1
    ∧ List.count (Event.bytesExtracted i) (mainAsync inp).1 = 1
    ∧ (i + 1 < (f0 :: rest).length →
        ∃ p q, (mainAsync inp).1 = p ++ q
          ∧ Event.bytesExtracted i ∈ p ∧ Event.beginDraw (i + 1) ∈ q) := by
  rw [mainAsync_success inp f0 rest bgs hf hdim hb hbdim]
  have hcounts := count_rfe_self (f0 :: rest).length f0.width f0.height i
  refine ⟨?_, ?_, ?_, ?_, ?_, ?_, ?_, ?_⟩
  · refine ⟨headerEvents (f0 :: rest).length bgs.length
        ++ encodeLoop (f0 :: rest).length f0.width f0.height ((f0 :: rest).take i) 0,
      Event.delaySet i (frameDelay % 65536)
        :: Event.pixelsCommitted i PixFormat.bgra8 AlphaMode.premultiplied
            f0.width f0.height 1 1
        :: ((if i < (f0 :: rest).length - 1 then [Event.advancedFrame i] else [])
            ++ (encodeLoop (f0 :: rest).length f0.width f0.height ((f0 :: rest).drop (i + 1))
                  (i + 1)
                ++ [Event.flushed, Event.doneLog])),
      ?_⟩
    rw [successTrace_decomp (f0 :: rest) bgs f0.width f0.height i hi]
    simp [List.append_assoc]
  · rw [successTrace_count_tagged (f0 :: rest) bgs f0.width f0.height
      (Event.beginDraw i) i rfl hi]
    exact hcounts.1
  · rw [successTrace_count_tagged (f0 :: rest) bgs f0.width f0.height
      (Event.drewTemplate i) i rfl hi]
    exact hcounts.2.1
  · rw [successTrace_count_tagged (f0 :: rest) bgs f0.width f0.height
      (Event.drewFrame i) i rfl hi]
    exact hcounts.2.2.1
  · rw [successTrace_count_tagged (f0 :: rest) bgs f0.width f0.height
      (Event.endDraw i) i rfl hi]
    exact hcounts.2.2.2.1
  · rw [successTrace_count_tagged (f0 :: rest) bgs f0.width f0.height
      (Event.copiedToStaging i) i rfl hi]
    exact hcounts.2.2.2.2.1
  · rw [successTrace_count_tagged (f0 :: rest) bgs f0.width f0.height
      (Event.bytesExtracted i) i rfl hi]
    exact hcounts.2.2.2.2.2.1
  · intro hi2
    refine ⟨headerEvents (f0 :: rest).length bgs.length
        ++ (encodeLoop (f0 :: rest).length f0.width f0.height ((f0 :: rest).take i) 0
            ++ ([Event.beginDraw i, Event.drewTemplate i, Event.drewFrame i, Event.endDraw i,
                 Event.copiedToStaging i, Event.bytesExtracted i, Event.delaySet i 13,
                 Event.pixelsCommitted i PixFormat.bgra8 AlphaMode.premultiplied
                   f0.width f0.height 1 1]
                ++ (if i < (f0 :: rest).length - 1 then [Event.advancedFrame i] else []))),
      encodeLoop (f0 :: rest).length f0.width f0.height ((f0 :: rest).drop (i + 1)) (i + 1)
        ++ [Event.flushed, Event.doneLog],
      ?_, by simp, ?_⟩
    · rw [successTrace_decomp (f0 :: rest) bgs f0.width f0.height i hi]
      simp [frameDelay, List.append_assoc]
    · refine List.mem_append.mpr (Or.inl ?_)
      refine (encodeLoop_mem _ _ _ _ _ _).mpr ⟨i + 1, le_refl _, ?_, beginDraw_mem_rfe _ _ _ _⟩
      rw [List.length_drop]
      omega

/-- Witness for C6 at frame 0 of a concrete two-frame run. -/
theorem render_pass_sequence_witness :
    (∃ p q, (mainAsync demoInput).1
        = p ++ (Event.beginDraw 0 :: Event.drewTemplate 0 :: Event.drewFrame 0
            :: Event.endDraw 0 :: Event.copiedToStaging 0 :: Event.bytesExtracted 0 :: q))
    ∧ List.count (Event.beginDraw 0) (mainAsync demoInput).1 = 1 :=
  have hmain := render_pass_sequence demoInput bmpRed [bmpGreen] [] rfl
    (by
      intro f hf2
      simp only [List.mem_cons, List.mem_singleton, List.not_mem_nil, or_false] at hf2
      rcases hf2 with h | h <;> subst h <;> exact ⟨rfl, rfl⟩)
    rfl
    (fun b hb2 => absurd hb2 (List.not_mem_nil b))
    0 (by decide)
  ⟨hmain.1, hmain.2.1⟩
